import Mathlib

/-!
Verification of the hierarchical inventory engine
(`inventory_hierarchical.go`): a jq-like document store addressed by
dotted/bracketed path expressions, with Query/Set/Delete/List operations,
implicit path creation on Set, and a load policy preferring a binary
snapshot over the canonical JSON file.

The Go document is `map[string]interface{}` whose values are JSON-decoded
nodes (`map[string]interface{}`, `[]interface{}`, or scalars).  We model a
node as the inductive `Node`; an object is an association list with unique
keys (Go map iteration order is irrelevant to the semantics modelled here;
numbers, which Go decodes as float64, are modelled opaquely since no
operation inspects a numeric value).
-/

set_option maxHeartbeats 1000000

/-- A node of the hierarchical document: Object, Array, or scalar
(string, number, boolean, null), mirroring the dynamic
`interface{}` values produced by `encoding/json`. -/
inductive Node where
  | null : Node
  | bool (b : Bool) : Node
  | num (n : Int) : Node
  | str (s : String) : Node
  | arr (elems : List Node) : Node
  | obj (entries : List (String × Node)) : Node
deriving Repr

/-- Go map read `d[key]`: the value bound to `key` (keys are unique). -/
def mapFind : List (String × Node) → String → Option Node
  | [], _ => none
  | (k', v) :: rest, k => if k' = k then some v else mapFind rest k

/-- Go map write `d[key] = v`: replace the binding in place, or append. -/
def mapSet : List (String × Node) → String → Node → List (String × Node)
  | [], k, v => [(k, v)]
  | (k', v') :: rest, k, v =>
    if k' = k then (k', v) :: rest else (k', v') :: mapSet rest k v

/-- Go `delete(d, key)`: remove the binding for `key` (a no-op if absent). -/
def mapDel : List (String × Node) → String → List (String × Node)
  | [], _ => []
  | (k', v') :: rest, k => if k' = k then rest else (k', v') :: mapDel rest k

/-- One parsed unit of a path expression, mirroring the Go `QuerySegment`
struct (`SegmentTypeKey` / `SegmentTypeIndex` / `SegmentTypeWildcard`,
with the `Key` and `Index` payload fields of the used variant). -/
inductive QuerySegment where
  | key (k : String) : QuerySegment
  | index (i : Int) : QuerySegment
  | wildcard : QuerySegment
deriving Repr, DecidableEq

/-- The typed failures of the engine, one constructor per distinct Go
error return site (the Go code formats them as strings; the payload
text is irrelevant to the claims). -/
inductive Err where
  /-- parseQuery: "invalid array index: %s" -/
  | invalidArrayIndex : Err
  /-- navigateKey: "key not found: %s" -/
  | keyNotFound : Err
  /-- navigateKey: "cannot access key %s on non-object type" -/
  | keyOnNonObject : Err
  /-- navigateIndex: "array index out of bounds: %d" -/
  | indexOutOfBounds : Err
  /-- navigateIndex: "cannot access index %d on non-array type" -/
  | indexOnNonArray : Err
  /-- navigateWildcard: "cannot use wildcard on non-array type" -/
  | wildcardOnNonArray : Err
  /-- Set: "cannot set root level" -/
  | cannotSetRoot : Err
  /-- Set: "can only set keys at root level" -/
  | rootSetNonKey : Err
  /-- Set: "cannot set key on non-object type" -/
  | setKeyOnNonObject : Err
  /-- Set: "can only set keys, not array indices or wildcards" -/
  | setNonKeyFinal : Err
  /-- createPath: "can only create paths with keys" -/
  | createNonKey : Err
  /-- createPath: "path conflict: %s is not an object" -/
  | pathConflict : Err
  /-- Delete: "cannot delete root level" -/
  | cannotDeleteRoot : Err
  /-- Delete: "can only delete keys at root level" -/
  | rootDeleteNonKey : Err
  /-- Delete: "can only delete keys, not array indices" -/
  | deleteNonKeyFinal : Err
  /-- Delete: "cannot delete key from non-object type" -/
  | deleteFromNonObject : Err
  /-- List: "cannot list keys on non-object type" -/
  | listNonObject : Err
  /-- Models the Go runtime panic from `segments[:len(segments)-1]` when a
  non-empty query string parses to zero segments (e.g. "."). -/
  | panicSliceBounds : Err
  /-- Marks match arms that are unreachable by construction (e.g. the value
  returned by createPath is statically a Go map, so its type assertion
  cannot fail). -/
  | unreachableBranch : Err
deriving Repr, DecidableEq

/-! ## Path parser (Go `parseQuery`) -/

/-- Semantics of `strings.Split(query, ".")`: one part per dot-separated
stretch; the empty string yields a single empty part. -/
def splitDots : List Char → List (List Char)
  | [] => [[]]
  | c :: cs =>
    if c = '.' then [] :: splitDots cs
    else
      match splitDots cs with
      | p :: ps => (c :: p) :: ps
      | [] => [[c]]

/-- Decimal value of one ASCII digit. -/
def digitVal? (c : Char) : Option Nat :=
  if '0' ≤ c ∧ c ≤ '9' then some (c.toNat - '0'.toNat) else none

def digitsValAux : List Char → Nat → Option Nat
  | [], acc => some acc
  | c :: cs, acc =>
    match digitVal? c with
    | some d => digitsValAux cs (acc * 10 + d)
    | none => none

/-- Value of a non-empty all-digit string, `none` otherwise. -/
def digitsVal : List Char → Option Nat
  | [] => none
  | cs => digitsValAux cs 0

/-- Largest Go `int` (64-bit platforms). -/
def goIntMax : Nat := 2 ^ 63 - 1

/-- Semantics of `strconv.Atoi`: an optional single sign followed by at
least one ASCII decimal digit, rejected when the value overflows the
signed 64-bit `int` range. -/
def atoi : List Char → Option Int
  | '+' :: rest =>
    (digitsVal rest).bind fun n => if n ≤ goIntMax then some (Int.ofNat n) else none
  | '-' :: rest =>
    (digitsVal rest).bind fun n =>
      if n ≤ goIntMax + 1 then some (-(Int.ofNat n)) else none
  | cs =>
    (digitsVal cs).bind fun n => if n ≤ goIntMax then some (Int.ofNat n) else none

/-- Semantics of the Go regexp match `^\[(.+)\]$` with its capture group:
the token is `[` … `]` with a non-empty middle; `.` does not match a
newline, and by greediness plus the two anchors the group is the whole
middle.  Returns the captured group. -/
def standaloneMatch : List Char → Option (List Char)
  | '[' :: rest =>
    let mid := rest.dropLast
    if rest.getLast? = some ']' ∧ mid ≠ [] ∧ mid.all (fun c => c ≠ '\n') then
      some mid
    else none
  | _ => none

/-- Scanning rendering of the Go regexp match `^(.+?)\[(.+)\]$`: the lazy
first group takes the shortest non-empty newline-free name followed by a
`[` such that the rest of the token is a non-empty newline-free middle
closed by a final `]`.  The accumulator holds the reversed name candidate
scanned so far; a newline ends the scan (neither group can contain one). -/
def keyArrayAux : List Char → List Char → Option (List Char × List Char)
  | _, [] => none
  | acc, c :: rest =>
    if c = '\n' then none
    else
      if c = '[' then
        let mid := rest.dropLast
        if rest.getLast? = some ']' ∧ acc ≠ [] ∧ mid ≠ [] ∧
            mid.all (fun ch => ch ≠ '\n') then
          some (acc.reverse, mid)
        else keyArrayAux ('[' :: acc) rest
      else keyArrayAux (c :: acc) rest

/-- Match of the Go regexp `^(.+?)\[(.+)\]$`, returning the two groups. -/
def keyArrayMatch (t : List Char) : Option (List Char × List Char) :=
  keyArrayAux [] t

/-- Shared bracket-content handling of parseQuery: `*` is a wildcard,
otherwise `strconv.Atoi` must accept the content. -/
def bracketSeg (mid : List Char) : Except Err QuerySegment :=
  if mid = ['*'] then .ok .wildcard
  else
    match atoi mid with
    | some i => .ok (.index i)
    | none => .error .invalidArrayIndex

/-- Per-token branch of parseQuery: standalone `[expr]` first, then
`name[expr]` (the Go guard `matches[1] != ""` is vacuous since the first
group is non-empty), otherwise a plain key. -/
def parseToken (t : List Char) : Except Err (List QuerySegment) :=
  match standaloneMatch t with
  | some mid =>
    match bracketSeg mid with
    | .ok seg => .ok [seg]
    | .error e => .error e
  | none =>
    match keyArrayMatch t with
    | some (name, mid) =>
      match bracketSeg mid with
      | .ok seg => .ok [.key (String.mk name), seg]
      | .error e => .error e
    | none => .ok [.key (String.mk t)]

/-- The loop of parseQuery over the dot-separated parts: empty parts are
skipped, segment lists are appended, the first failure aborts. -/
def parseParts : List (List Char) → Except Err (List QuerySegment)
  | [] => .ok []
  | t :: ts =>
    if t.isEmpty then parseParts ts
    else
      match parseToken t with
      | .error e => .error e
      | .ok segs =>
        match parseParts ts with
        | .error e => .error e
        | .ok more => .ok (segs ++ more)

/-- Go `parseQuery`: split on dots and process each part. -/
def parseQuery (q : String) : Except Err (List QuerySegment) :=
  parseParts (splitDots q.data)

/-! ## Navigator (Go `navigate` / `navigateKey` / `navigateIndex` /
`navigateWildcard`) -/

/-- Go `navigate`: consume segments recursively.  The wildcard case
mirrors the Go loop that appends the per-element result on success and
skips the element on failure (`filterMap` of the successful results, in
element order). -/
def navigate : Node → List QuerySegment → Except Err Node
  | d, [] => .ok d
  | d, seg :: rest =>
    match seg with
    | .key k =>
      match d with
      | .obj entries =>
        match mapFind entries k with
        | some v => navigate v rest
        | none => .error .keyNotFound
      | _ => .error .keyOnNonObject
    | .index i =>
      match d with
      | .arr elems =>
        if h : 0 ≤ i ∧ i < (elems.length : Int) then
          navigate (elems.get ⟨i.toNat, by omega⟩) rest
        else .error .indexOutOfBounds
      | _ => .error .indexOnNonArray
    | .wildcard =>
      match d with
      | .arr elems =>
        .ok (.arr (elems.filterMap (fun x => (navigate x rest).toOption)))
      | _ => .error .wildcardOnNonArray

/-- Go `Query` on a loaded store: the empty query returns the whole
document, otherwise parse then navigate from the root map. -/
def QueryOp (root : List (String × Node)) (query : String) : Except Err Node :=
  if query = "" then .ok (.obj root)
  else
    match parseQuery query with
    | .error e => .error e
    | .ok segs => navigate (.obj root) segs

/-- Go `List`: Query, then require an Object and return its keys (Go
iterates the map in unspecified order; the model returns entry order). -/
def ListOp (root : List (String × Node)) (query : String) :
    Except Err (List String) :=
  match QueryOp root query with
  | .error e => .error e
  | .ok d =>
    match d with
    | .obj entries => .ok (entries.map Prod.fst)
    | _ => .error .listNonObject

/-! ## Mutator (Go `Set` / `createPath` / `Delete`)

Go mutates the document in place through the reference `navigate` (or
`createPath`) returns.  Since assignment through that reference updates
the tree at the unique position visited by the Key/Index steps — a
Wildcard step returns a freshly allocated slice, never a position in the
tree, so the subsequent map type assertion fails — the in-place mutation
is modelled by rebuilding the tree along the navigated path. -/

/-- The Set success branch after `navigate` to the parent succeeded:
replay the navigation while rebuilding, then run the final-segment phase
of Go `Set` at the parent (`switch finalSegment.Type`: a Key requires the
parent to be a map and assigns into it; anything else is an error). -/
def updateParent : Node → List QuerySegment → QuerySegment → Node →
    Except Err Node
  | d, [], fin, v =>
    match fin with
    | .key k =>
      match d with
      | .obj entries => .ok (.obj (mapSet entries k v))
      | _ => .error .setKeyOnNonObject
    | _ => .error .setNonKeyFinal
  | d, .key kk :: rest, fin, v =>
    match d with
    | .obj entries =>
      match mapFind entries kk with
      | some child =>
        match updateParent child rest fin v with
        | .ok c => .ok (.obj (mapSet entries kk c))
        | .error e => .error e
      | none => .error .keyNotFound
    | _ => .error .keyOnNonObject
  | d, .index i :: rest, fin, v =>
    match d with
    | .arr elems =>
      if h : 0 ≤ i ∧ i < (elems.length : Int) then
        match updateParent (elems.get ⟨i.toNat, by omega⟩) rest fin v with
        | .ok c => .ok (.arr (elems.set i.toNat c))
        | .error e => .error e
      else .error .indexOutOfBounds
    | _ => .error .indexOnNonArray
  | d, .wildcard :: _, fin, _ =>
    match d with
    | .arr _ =>
      -- navigate succeeds on an array wildcard and returns a fresh slice;
      -- Go then checks the final segment type, and for a Key the map
      -- type assertion on the slice fails.
      match fin with
      | .key _ => .error .setKeyOnNonObject
      | _ => .error .setNonKeyFinal
    | _ => .error .wildcardOnNonArray

/-- Go `createPath`: walk the segments from the root map, requiring every
one to be a Key, installing an empty Object at each missing step, and
failing on an existing non-Object.  Creations happen in place, so the
partially mutated map is returned even on error; on success the returned
key list is the tree position of the map reference Go returns. -/
def createPath : List (String × Node) → List QuerySegment →
    List (String × Node) × Except Err (List String)
  | entries, [] => (entries, .ok [])
  | entries, .key k :: rest =>
    match mapFind entries k with
    | none =>
      let res := createPath [] rest
      (mapSet entries k (.obj res.1), res.2.map (fun ks => k :: ks))
    | some (.obj child) =>
      let res := createPath child rest
      (mapSet entries k (.obj res.1), res.2.map (fun ks => k :: ks))
    | some _ => (entries, .error .pathConflict)
  | entries, _ :: _ => (entries, .error .createNonKey)

/-- The Set final-segment phase after a successful `createPath`: Go holds
a reference to the map at the created key path; the type assertion to a
map always succeeds there (createPath returns a map), so a Key final
segment assigns and any other final segment is an error. -/
def assignAtKeys : List (String × Node) → List String → QuerySegment →
    Node → Except Err (List (String × Node))
  | entries, [], fin, v =>
    match fin with
    | .key k => .ok (mapSet entries k v)
    | _ => .error .setNonKeyFinal
  | entries, k :: ks, fin, v =>
    match mapFind entries k with
    | some (.obj child) =>
      match assignAtKeys child ks fin v with
      | .ok child' => .ok (mapSet entries k (.obj child'))
      | .error e => .error e
    | _ => .error .unreachableBranch

/-- Go `Set` after parsing, acting on the in-memory root map: returns the
resulting document together with the error, if any (on an error the
already-performed in-place mutations — the createPath creations — are
kept; persistence, which only runs on success, is modelled separately). -/
def SetSegs (root : List (String × Node)) (segs : List QuerySegment)
    (v : Node) : List (String × Node) × Option Err :=
  match segs with
  | [] => (root, some .panicSliceBounds)
  | [seg] =>
    match seg with
    | .key k => (mapSet root k v, none)
    | _ => (root, some .rootSetNonKey)
  | seg1 :: seg2 :: more =>
    let parentSegs := (seg1 :: seg2 :: more).dropLast
    let fin := (seg1 :: seg2 :: more).getLast (List.cons_ne_nil _ _)
    match navigate (.obj root) parentSegs with
    | .ok _ =>
      match updateParent (.obj root) parentSegs fin v with
      | .ok (.obj root') => (root', none)
      | .ok _ => (root, some .unreachableBranch)
      | .error e => (root, some e)
    | .error _ =>
      match createPath root parentSegs with
      | (root1, .error e) => (root1, some e)
      | (root1, .ok ks) =>
        match assignAtKeys root1 ks fin v with
        | .ok root2 => (root2, none)
        | .error e => (root1, some e)

/-- Go `Set` on a loaded store (in-memory effect and error). -/
def SetOp (root : List (String × Node)) (query : String) (v : Node) :
    List (String × Node) × Option Err :=
  if query = "" then (root, some .cannotSetRoot)
  else
    match parseQuery query with
    | .error e => (root, some e)
    | .ok segs => SetSegs root segs v

/-- The Delete branch after `navigate` to the parent succeeded and the
final segment was checked to be a Key: replay the navigation while
rebuilding and remove the key from the parent map (Go `delete`, a no-op
when absent); a non-map parent fails the type assertion. -/
def deleteParent : Node → List QuerySegment → String → Except Err Node
  | d, [], k =>
    match d with
    | .obj entries => .ok (.obj (mapDel entries k))
    | _ => .error .deleteFromNonObject
  | d, .key kk :: rest, k =>
    match d with
    | .obj entries =>
      match mapFind entries kk with
      | some child =>
        match deleteParent child rest k with
        | .ok c => .ok (.obj (mapSet entries kk c))
        | .error e => .error e
      | none => .error .keyNotFound
    | _ => .error .keyOnNonObject
  | d, .index i :: rest, k =>
    match d with
    | .arr elems =>
      if h : 0 ≤ i ∧ i < (elems.length : Int) then
        match deleteParent (elems.get ⟨i.toNat, by omega⟩) rest k with
        | .ok c => .ok (.arr (elems.set i.toNat c))
        | .error e => .error e
      else .error .indexOutOfBounds
    | _ => .error .indexOnNonArray
  | d, .wildcard :: _, _ =>
    match d with
    -- the fresh slice a wildcard navigation returns fails the map
    -- type assertion of the delete phase
    | .arr _ => .error .deleteFromNonObject
    | _ => .error .wildcardOnNonArray

/-- Go `Delete` after parsing, acting on the in-memory root map. -/
def DeleteSegs (root : List (String × Node)) (segs : List QuerySegment) :
    List (String × Node) × Option Err :=
  match segs with
  | [] => (root, some .panicSliceBounds)
  | [seg] =>
    match seg with
    | .key k => (mapDel root k, none)
    | _ => (root, some .rootDeleteNonKey)
  | seg1 :: seg2 :: more =>
    let parentSegs := (seg1 :: seg2 :: more).dropLast
    let fin := (seg1 :: seg2 :: more).getLast (List.cons_ne_nil _ _)
    match navigate (.obj root) parentSegs with
    | .error e => (root, some e)
    | .ok _ =>
      match fin with
      | .key k =>
        match deleteParent (.obj root) parentSegs k with
        | .ok (.obj root') => (root', none)
        | .ok _ => (root, some .unreachableBranch)
        | .error e => (root, some e)
      | _ => (root, some .deleteNonKeyFinal)

/-- Go `Delete` on a loaded store (in-memory effect and error). -/
def DeleteOp (root : List (String × Node)) (query : String) :
    List (String × Node) × Option Err :=
  if query = "" then (root, some .cannotDeleteRoot)
  else
    match parseQuery query with
    | .error e => (root, some e)
    | .ok segs => DeleteSegs root segs

/-! ## Load policy (Go `loadData`) -/

/-- Abstraction of the file-system facts `loadData` consults: the
`os.Stat` outcome for the snapshot and the canonical JSON file
(modification time when the file exists), the outcome of reading and
gob-decoding the snapshot, the outcome of reading and JSON-decoding the
canonical file, and the data a legacy multi-file import would produce. -/
structure FsState where
  binMTime : Option Int
  jsonMTime : Option Int
  binContent : Option (List (String × Node))
  jsonContent : Option (List (String × Node))
  legacyData : List (String × Node)

/-- Which branch of `loadData` produced the document. -/
inductive LoadSource where
  | snapshot : LoadSource
  | json : LoadSource
  | legacy : LoadSource
deriving Repr, DecidableEq

/-- Go `loadData`: use the binary snapshot when it exists and `ModTime().
After` the JSON file's (strictly newer), or the JSON stat fails; fall
back to the canonical JSON file, then to the legacy multi-file import
(which also covers the start-empty case). -/
def loadDataModel (fs : FsState) : List (String × Node) × LoadSource :=
  let fromJson : Option (List (String × Node)) :=
    match fs.jsonMTime, fs.jsonContent with
    | some _, some doc => some doc
    | _, _ => none
  let jsonOrLegacy : List (String × Node) × LoadSource :=
    match fromJson with
    | some doc => (doc, .json)
    | none => (fs.legacyData, .legacy)
  match fs.binMTime with
  | some bt =>
    let useBin : Bool :=
      match fs.jsonMTime with
      | none => true
      | some jt => jt < bt
    match (if useBin then fs.binContent else none) with
    | some doc => (doc, .snapshot)
    | none => jsonOrLegacy
  | none => jsonOrLegacy

/-! ## Spec-side reformulations (for refinement-style claims) -/

/-- Modelled from the spec wording of C3: implicit path creation walks the
parent keys, materializing an empty Object (never an Array) at each
missing step, failing with a conflict error when an existing node along
the walk is not an Object, and on success assigning the final key in the
created parent. -/
def specCreateSet : List (String × Node) → List String → String → Node →
    Except Err (List (String × Node))
  | m, [], k, v => .ok (mapSet m k v)
  | m, k' :: ks, k, v =>
    match mapFind m k' with
    | none => (specCreateSet [] ks k v).map (fun c => mapSet m k' (.obj c))
    | some (.obj child) =>
      (specCreateSet child ks k v).map (fun c => mapSet m k' (.obj c))
    | some _ => .error .pathConflict

/-- Whether a navigation attempt succeeded (used to state wildcard
leniency). -/
def isOkB : Except Err Node → Bool
  | .ok _ => true
  | .error _ => false

/-- Spec-side condition for the standalone bracket form: the token is a
`[`, a non-empty newline-free content, and a closing `]`. -/
def specStandalone? (t : List Char) : Option (List Char) :=
  let mid := (t.drop 1).dropLast
  if t.head? = some '[' ∧ t.getLast? = some ']' ∧ 3 ≤ t.length ∧
      mid.all (fun c => c ≠ '\n') then
    some mid
  else none

/-- No character of the list is a newline (Go regexp `.` matches any
character except a newline). -/
def noNL (l : List Char) : Bool := l.all (fun c => c ≠ '\n')

/-- Spec-side condition for splitting a token as `name[expr]` at position
`j` of the opening bracket: the name (before `j`) is non-empty and
newline-free, the token ends with `]`, and the expr (between `j` and the
final `]`) is non-empty and newline-free. -/
def goodSplit (t : List Char) (j : Nat) : Bool :=
  decide (1 ≤ j) && decide (t[j]? = some '[') && noNL (t.take j) &&
    decide (t.getLast? = some ']') && decide (j + 2 < t.length) &&
    noNL ((t.drop (j + 1)).dropLast)

/-- Spec-side `name[expr]` split: the smallest opening-bracket position
satisfying `goodSplit` (the lazy first group of the regex takes the
shortest name), returning the name and the expr. -/
def specKeyArray? (t : List Char) : Option (List Char × List Char) :=
  match (List.range t.length).find? (fun j => goodSplit t j) with
  | some j => some (t.take j, (t.drop (j + 1)).dropLast)
  | none => none

/-- Spec-side token classification of the amended C7: standalone bracket
form, then `name[expr]` form, then a plain key. -/
def specToken (t : List Char) : Except Err (List QuerySegment) :=
  match specStandalone? t with
  | some mid =>
    match bracketSeg mid with
    | .ok seg => .ok [seg]
    | .error e => .error e
  | none =>
    match specKeyArray? t with
    | some (name, mid) =>
      match bracketSeg mid with
      | .ok seg => .ok [.key (String.mk name), seg]
      | .error e => .error e
    | none => .ok [.key (String.mk t)]

/-- Spec-side parse: split on dots, drop empty tokens, classify each
token with `specToken`, concatenating the produced segments. -/
def specParts : List (List Char) → Except Err (List QuerySegment)
  | [] => .ok []
  | t :: ts =>
    if t.isEmpty then specParts ts
    else
      match specToken t with
      | .error e => .error e
      | .ok segs =>
        match specParts ts with
        | .error e => .error e
        | .ok more => .ok (segs ++ more)

/-- Spec-side reformulation of the amended C7 parser contract. -/
def parseSpec (q : String) : Except Err (List QuerySegment) :=
  specParts (splitDots q.data)


/-! ## Supporting lemmas -/

theorem mapFind_mapSet_self (m : List (String × Node)) (k : String) (v : Node) :
    mapFind (mapSet m k v) k = some v := by
  induction m with
  | nil => simp [mapSet, mapFind]
  | cons hd tl ih =>
    obtain ⟨k', v'⟩ := hd
    by_cases h : k' = k <;> simp [mapSet, mapFind, h, ih]

theorem mapSet_of_mapFind_some (m : List (String × Node)) (k : String)
    (v : Node) (h : mapFind m k = some v) : mapSet m k v = m := by
  induction m with
  | nil => simp [mapFind] at h
  | cons hd tl ih =>
    obtain ⟨k', v'⟩ := hd
    by_cases hk : k' = k
    · simp [mapFind, hk] at h
      simp [mapSet, hk, h]
    · simp [mapFind, hk] at h
      simp [mapSet, hk, ih h]

theorem mapDel_of_mapFind_none (m : List (String × Node)) (k : String)
    (h : mapFind m k = none) : mapDel m k = m := by
  induction m with
  | nil => simp [mapDel]
  | cons hd tl ih =>
    obtain ⟨k', v'⟩ := hd
    by_cases hk : k' = k
    · simp [mapFind, hk] at h
    · simp [mapFind, hk] at h
      simp [mapDel, hk, ih h]

theorem mapSet_mapSet (m : List (String × Node)) (k : String) (v w : Node) :
    mapSet (mapSet m k v) k w = mapSet m k w := by
  induction m with
  | nil => simp [mapSet]
  | cons hd tl ih =>
    obtain ⟨k', v'⟩ := hd
    by_cases hk : k' = k <;> simp [mapSet, hk, ih]

theorem mapFind_isSome_iff (m : List (String × Node)) (k : String) :
    (mapFind m k).isSome = true ↔ k ∈ m.map Prod.fst := by
  induction m with
  | nil => simp [mapFind]
  | cons hd tl ih =>
    obtain ⟨k', v'⟩ := hd
    by_cases hk : k' = k <;> simp [mapFind, hk, ih]
    exact fun h => (hk h.symm).elim

theorem list_set_get_self (xs : List Node) (n : Nat) (h : n < xs.length) :
    xs.set n (xs.get ⟨n, h⟩) = xs := by
  induction xs generalizing n with
  | nil => simp at h
  | cons hd tl ih =>
    cases n with
    | zero => simp
    | succ n => simpa using ih n (by simpa using h)

/-- A successful Set mutation through the navigated parent reference makes
the written value readable at the full path. -/
theorem updateParent_navigate (ps : List QuerySegment) :
    ∀ (d d' : Node) (k : String) (v : Node),
      updateParent d ps (.key k) v = .ok d' →
      navigate d' (ps ++ [.key k]) = .ok v := by
  induction ps with
  | nil =>
    intro d d' k v h
    cases d with
    | obj entries =>
      simp only [updateParent] at h
      cases h
      simp [navigate, mapFind_mapSet_self]
    | null => simp [updateParent] at h
    | bool b => simp [updateParent] at h
    | num n => simp [updateParent] at h
    | str s => simp [updateParent] at h
    | arr elems => simp [updateParent] at h
  | cons seg rest ih =>
    intro d d' k v h
    cases seg with
    | key kk =>
      cases d with
      | obj entries =>
        simp only [updateParent] at h
        cases hf : mapFind entries kk with
        | none => simp [hf] at h
        | some child =>
          simp only [hf] at h
          cases hu : updateParent child rest (.key k) v with
          | error e => simp [hu] at h
          | ok c =>
            simp only [hu] at h
            cases h
            simp [navigate, mapFind_mapSet_self, ih child c k v hu]
      | null => simp [updateParent] at h
      | bool b => simp [updateParent] at h
      | num n => simp [updateParent] at h
      | str s => simp [updateParent] at h
      | arr elems => simp [updateParent] at h
    | index i =>
      cases d with
      | arr elems =>
        simp only [updateParent] at h
        by_cases hb : 0 ≤ i ∧ i < (elems.length : Int)
        · simp only [dif_pos hb] at h
          simp only [List.get_eq_getElem] at h
          cases hu : updateParent (elems.get ⟨i.toNat, by omega⟩) rest (.key k) v with
          | error e =>
            try simp only [List.get_eq_getElem] at hu
            simp [hu] at h
          | ok c =>
            try simp only [List.get_eq_getElem] at hu
            rw [hu] at h
            cases h
            have hlen : ((elems.set i.toNat c).length : Int) = (elems.length : Int) := by
              simp
            simp only [navigate, List.cons_append]
            rw [dif_pos (by omega : 0 ≤ i ∧ i < ((elems.set i.toNat c).length : Int))]
            have hget : (elems.set i.toNat c).get ⟨i.toNat, by simp; omega⟩ = c := by
              simp
            simp only [List.get_eq_getElem] at hget ⊢
            rw [hget]
            exact ih _ c k v hu
        · simp [dif_neg hb] at h
      | null => simp [updateParent] at h
      | bool b => simp [updateParent] at h
      | num n => simp [updateParent] at h
      | str s => simp [updateParent] at h
      | obj entries => simp [updateParent] at h
    | wildcard =>
      cases d with
      | arr elems => simp [updateParent] at h
      | null => simp [updateParent] at h
      | bool b => simp [updateParent] at h
      | num n => simp [updateParent] at h
      | str s => simp [updateParent] at h
      | obj entries => simp [updateParent] at h

/-- A successful Set assignment through the createPath reference makes
the written value readable at the created key path plus the final key. -/
theorem assignAtKeys_navigate (ks : List String) :
    ∀ (m m' : List (String × Node)) (k : String) (v : Node),
      assignAtKeys m ks (.key k) v = .ok m' →
      navigate (.obj m') (ks.map QuerySegment.key ++ [.key k]) = .ok v := by
  induction ks with
  | nil =>
    intro m m' k v h
    simp only [assignAtKeys] at h
    cases h
    simp [navigate, mapFind_mapSet_self]
  | cons k' ks ih =>
    intro m m' k v h
    simp only [assignAtKeys] at h
    cases hf : mapFind m k' with
    | none => simp [hf] at h
    | some child =>
      cases child with
      | obj centries =>
        simp only [hf] at h
        cases ha : assignAtKeys centries ks (.key k) v with
        | error e => simp [ha] at h
        | ok child' =>
          simp only [ha] at h
          cases h
          simp [navigate, mapFind_mapSet_self, ih centries child' k v ha]
      | null => simp [hf] at h
      | bool b => simp [hf] at h
      | num n => simp [hf] at h
      | str s => simp [hf] at h
      | arr elems => simp [hf] at h

/-- A successful createPath walk consumed exactly Key segments, and the
returned key list is those keys in order. -/
theorem createPath_keys (segs : List QuerySegment) :
    ∀ (m : List (String × Node)) (ks : List String),
      (createPath m segs).2 = .ok ks → segs = ks.map QuerySegment.key := by
  induction segs with
  | nil =>
    intro m ks h
    simp only [createPath] at h
    cases h
    rfl
  | cons seg rest ih =>
    intro m ks h
    cases seg with
    | key k =>
      simp only [createPath] at h
      cases hf : mapFind m k with
      | none =>
        simp only [hf] at h
        cases hr : (createPath [] rest).2 with
        | error e => simp [hr, Except.map] at h
        | ok ks' =>
          simp only [hr, Except.map] at h
          cases h
          simp [ih [] ks' hr]
      | some child =>
        cases child with
        | obj centries =>
          simp only [hf] at h
          cases hr : (createPath centries rest).2 with
          | error e => simp [hr, Except.map] at h
          | ok ks' =>
            simp only [hr, Except.map] at h
            cases h
            simp [ih centries ks' hr]
        | null => simp [hf] at h
        | bool b => simp [hf] at h
        | num n => simp [hf] at h
        | str s => simp [hf] at h
        | arr elems => simp [hf] at h
    | index i => simp [createPath] at h
    | wildcard => simp [createPath] at h

theorem range_find?_shift (p : Nat → Bool) (len : Nat) (h : ¬ p 0 = true) :
    (List.range (len + 1)).find? p =
      ((List.range len).find? (fun i => p (i + 1))).map Nat.succ := by
  rw [List.range_succ_eq_map, List.find?_cons_of_neg _ h, List.find?_map]
  rfl

theorem keyArrayAux_step (acc : List Char) (c : Char) (s' : List Char)
    (hacc : noNL acc = true) (hc : ¬ c = '\n')
    (hp0 : ¬ goodSplit (acc.reverse ++ c :: s') (acc.reverse.length + 0) = true)
    (ih : ∀ acc2, noNL acc2 = true → keyArrayAux acc2 s' =
      ((List.range s'.length).find?
          (fun i => goodSplit (acc2.reverse ++ s') (acc2.reverse.length + i))).map
        (fun i =>
          ((acc2.reverse ++ s').take (acc2.reverse.length + i),
            ((acc2.reverse ++ s').drop (acc2.reverse.length + i + 1)).dropLast))) :
    keyArrayAux (c :: acc) s' =
      ((List.range (s'.length + 1)).find?
          (fun i => goodSplit (acc.reverse ++ c :: s') (acc.reverse.length + i))).map
        (fun i =>
          ((acc.reverse ++ c :: s').take (acc.reverse.length + i),
            ((acc.reverse ++ c :: s').drop (acc.reverse.length + i + 1)).dropLast)) := by
  have hacc2 : noNL (c :: acc) = true := by
    simp only [noNL, List.all_cons, Bool.and_eq_true, decide_eq_true_eq]
    exact ⟨hc, by simpa [noNL] using hacc⟩
  have hrew : (c :: acc).reverse ++ s' = acc.reverse ++ c :: s' := by simp
  have hrewlen : ((c :: acc).reverse).length = acc.reverse.length + 1 := by simp
  have hadd : ∀ i : Nat,
      acc.reverse.length + 1 + i = acc.reverse.length + (i + 1) := by omega
  rw [range_find?_shift _ _ hp0, Option.map_map, ih (c :: acc) hacc2, hrew, hrewlen]
  simp only [Function.comp_def, Nat.succ_eq_add_one, hadd]

theorem keyArrayAux_spec :
    ∀ (s acc : List Char), noNL acc = true →
      keyArrayAux acc s =
        ((List.range s.length).find?
            (fun i => goodSplit (acc.reverse ++ s) (acc.reverse.length + i))).map
          (fun i =>
            ((acc.reverse ++ s).take (acc.reverse.length + i),
              ((acc.reverse ++ s).drop (acc.reverse.length + i + 1)).dropLast)) := by
  intro s
  induction s with
  | nil =>
    intro acc hacc
    simp [keyArrayAux]
  | cons c s' ih =>
    intro acc hacc
    have htn : (acc.reverse ++ c :: s')[acc.reverse.length]? = some c := by
      rw [List.getElem?_append_right (le_refl _)]
      simp
    simp only [List.length_cons]
    by_cases hc : c = '\n'
    · subst hc
      have hfind :
          (List.range (s'.length + 1)).find?
            (fun i => goodSplit (acc.reverse ++ '\n' :: s')
              (acc.reverse.length + i)) = none := by
        rw [List.find?_eq_none]
        intro i _
        by_cases hi0 : i = 0
        · subst hi0
          intro h
          simp only [goodSplit, Bool.and_eq_true, decide_eq_true_eq, Nat.add_zero] at h
          rw [htn] at h
          simp at h
        · obtain ⟨j, rfl⟩ : ∃ j, i = j + 1 := ⟨i - 1, by omega⟩
          have h2 : (acc.reverse ++ '\n' :: s').take (acc.reverse.length + (j + 1))
              = acc.reverse ++ '\n' :: s'.take j := by
            rw [List.take_append]
            simp
          intro h
          simp only [goodSplit, Bool.and_eq_true, decide_eq_true_eq] at h
          obtain ⟨⟨⟨⟨⟨hA, hB⟩, hC⟩, hD⟩, hE⟩, hF⟩ := h
          rw [h2] at hC
          simp [noNL] at hC
      rw [hfind]
      simp [keyArrayAux]
    · by_cases hbr : c = '['
      · subst hbr
        -- shared facts about the candidate at the current position
        have htake : (acc.reverse ++ '[' :: s').take (acc.reverse.length + 0)
            = acc.reverse := by
          simp [List.take_left]
        have hdrop : (acc.reverse ++ '[' :: s').drop (acc.reverse.length + 0 + 1)
            = s' := by
          rw [show acc.reverse.length + 0 + 1 = acc.reverse.length + 1 from by omega]
          exact List.drop_append 1
        have hnlrev : noNL acc.reverse = true := by
          simpa [noNL, List.all_reverse] using hacc
        have hlastIff : (acc.reverse ++ '[' :: s').getLast? = some ']'
            ↔ s'.getLast? = some ']' := by
          cases s' with
          | nil =>
            rw [List.getLast?_append_of_ne_nil _ (List.cons_ne_nil _ _)]
            simp
          | cons b bs =>
            rw [List.getLast?_append_of_ne_nil _ (List.cons_ne_nil _ _)]
            exact Iff.rfl
        have hmidIff : s'.dropLast ≠ [] ↔ 1 < s'.length := by
          rw [← List.length_pos, List.length_dropLast]
          omega
        have hlenIff : acc.reverse.length + 0 + 2 < (acc.reverse ++ '[' :: s').length
            ↔ 1 < s'.length := by
          simp [List.length_append]
          omega
        have hgoodIff : goodSplit (acc.reverse ++ '[' :: s') (acc.reverse.length + 0) = true
            ↔ (s'.getLast? = some ']' ∧ acc ≠ [] ∧ s'.dropLast ≠ [] ∧
                s'.dropLast.all (fun ch => ch ≠ '\n') = true) := by
          constructor
          · intro h
            simp only [goodSplit, Bool.and_eq_true, decide_eq_true_eq] at h
            obtain ⟨⟨⟨⟨⟨hA, hB⟩, hC⟩, hD⟩, hE⟩, hF⟩ := h
            refine ⟨hlastIff.mp hD, ?_, hmidIff.mpr (hlenIff.mp hE), ?_⟩
            · intro hnil
              subst hnil
              simp at hA
            · rw [hdrop] at hF
              simpa [noNL] using hF
          · rintro ⟨h1, h2, h3, h4⟩
            simp only [goodSplit, Bool.and_eq_true, decide_eq_true_eq]
            refine ⟨⟨⟨⟨⟨?_, by simpa using htn⟩, ?_⟩, hlastIff.mpr h1⟩,
              hlenIff.mpr (hmidIff.mp h3)⟩, ?_⟩
            · have hne : acc.length ≠ 0 := fun h0 => h2 (List.length_eq_zero.mp h0)
              simp only [List.length_reverse]
              omega
            · rw [htake]
              exact hnlrev
            · rw [hdrop]
              simpa [noNL] using h4
        by_cases hcond : s'.getLast? = some ']' ∧ acc ≠ [] ∧ s'.dropLast ≠ [] ∧
            s'.dropLast.all (fun ch => ch ≠ '\n') = true
        · -- candidate accepted: both sides produce the current split
          have hlhs : keyArrayAux acc ('[' :: s')
              = some (acc.reverse, s'.dropLast) := by
            simp only [keyArrayAux]
            rw [if_pos trivial, if_pos hcond, if_neg hc]
          have hfind : ((0 :: (List.range s'.length).map Nat.succ).find?
              (fun i => goodSplit (acc.reverse ++ '[' :: s') (acc.reverse.length + i)))
              = some 0 :=
            List.find?_cons_of_pos _ (by simpa using hgoodIff.mpr hcond)
          have htk : (acc.reverse ++ '[' :: s').take acc.reverse.length = acc.reverse :=
            List.take_left _ _
          have hdr : (acc.reverse ++ '[' :: s').drop (acc.reverse.length + 1) = s' :=
            List.drop_append 1
          have hdr2 : (acc.reverse ++ '[' :: s').drop (acc.length + 1) = s' := by
            simpa using hdr
          rw [hlhs, List.range_succ_eq_map, hfind]
          simp [htk, hdr, hdr2]
        · -- candidate rejected: scan on with the bracket in the name
          have hlhs : keyArrayAux acc ('[' :: s')
              = keyArrayAux ('[' :: acc) s' := by
            simp only [keyArrayAux]
            rw [if_pos trivial, if_neg hcond, if_neg hc]
          rw [hlhs]
          exact keyArrayAux_step acc '[' s' hacc (by simp)
            (fun h => hcond (hgoodIff.mp h)) ih
      · -- an ordinary character joins the name candidate
        have hp0 : ¬ goodSplit (acc.reverse ++ c :: s') (acc.reverse.length + 0) = true := by
          intro h
          unfold goodSplit at h
          rw [Bool.and_eq_true, Bool.and_eq_true, Bool.and_eq_true, Bool.and_eq_true,
            Bool.and_eq_true] at h
          have hB := of_decide_eq_true h.1.1.1.1.2
          rw [Nat.add_zero, htn] at hB
          exact hbr (by simpa using hB)
        have hlhs : keyArrayAux acc (c :: s') = keyArrayAux (c :: acc) s' := by
          simp only [keyArrayAux]
          rw [if_neg hc, if_neg hbr]
        rw [hlhs]
        exact keyArrayAux_step acc c s' hacc hc hp0 ih

theorem keyArrayMatch_spec (t : List Char) : keyArrayMatch t = specKeyArray? t := by
  rw [keyArrayMatch, keyArrayAux_spec t [] rfl, specKeyArray?]
  simp only [List.reverse_nil, List.nil_append, List.length_nil, Nat.zero_add]
  cases h : (List.range t.length).find? (fun j => goodSplit t j) with
  | none => rfl
  | some j => rfl

theorem standaloneMatch_spec (t : List Char) : standaloneMatch t = specStandalone? t := by
  cases t with
  | nil => simp [standaloneMatch, specStandalone?]
  | cons c rest =>
    by_cases hc : c = '['
    · subst hc
      have hlastIff : ('[' :: rest).getLast? = some ']' ↔ rest.getLast? = some ']' := by
        cases rest with
        | nil => simp
        | cons b bs => exact Iff.rfl
      have hlenIff : 3 ≤ ('[' :: rest).length ↔ rest.dropLast ≠ [] := by
        rw [← List.length_pos, List.length_dropLast, List.length_cons]
        omega
      simp only [standaloneMatch, specStandalone?]
      by_cases hcond : rest.getLast? = some ']' ∧ rest.dropLast ≠ [] ∧
          rest.dropLast.all (fun ch => ch ≠ '\n') = true
      · rw [if_pos hcond,
          if_pos ⟨rfl, hlastIff.mpr hcond.1, hlenIff.mpr hcond.2.1, hcond.2.2⟩]
        simp
      · rw [if_neg hcond, if_neg (fun hsp => hcond
          ⟨hlastIff.mp hsp.2.1, hlenIff.mp hsp.2.2.1, hsp.2.2.2⟩)]
    · have hsrc : standaloneMatch (c :: rest) = none := by
        simp [standaloneMatch, hc]
      have hspec : specStandalone? (c :: rest) = none := by
        rw [specStandalone?]
        exact if_neg (fun hsp => hc (by simpa using hsp.1))
      rw [hsrc, hspec]

theorem parseToken_spec (t : List Char) : parseToken t = specToken t := by
  rw [parseToken, specToken, standaloneMatch_spec, keyArrayMatch_spec]

theorem parseParts_spec (ts : List (List Char)) : parseParts ts = specParts ts := by
  induction ts with
  | nil => rfl
  | cons t ts ih =>
    rw [parseParts, specParts, parseToken_spec, ih]

/-- The parser agrees with the spec-side reformulation on every input. -/
theorem parseQuery_eq_parseSpec (q : String) : parseQuery q = parseSpec q := by
  rw [parseQuery, parseSpec, parseParts_spec]

theorem specCreateSet_empty_ok (ks : List String) (k : String) (v : Node) :
    ∃ m', specCreateSet [] ks k v = .ok m' := by
  induction ks with
  | nil => exact ⟨mapSet [] k v, rfl⟩
  | cons k' ks ih =>
    obtain ⟨m', h⟩ := ih
    exact ⟨mapSet [] k' (.obj m'), by simp [specCreateSet, mapFind, h, Except.map]⟩

/-- On an all-Key parent path, the Go createPath walk followed by the
final assignment computes exactly the spec-side auto-creation; a conflict
leaves the document untouched and is also a spec-side conflict. -/
theorem createPath_allKeys (ks : List String) :
    ∀ (m : List (String × Node)) (k : String) (v : Node),
      ((createPath m (ks.map QuerySegment.key)).2 = .ok ks ∧
        assignAtKeys (createPath m (ks.map QuerySegment.key)).1 ks (.key k) v
          = specCreateSet m ks k v ∧
        ∃ m', specCreateSet m ks k v = .ok m')
      ∨ (createPath m (ks.map QuerySegment.key) = (m, .error .pathConflict) ∧
          specCreateSet m ks k v = .error .pathConflict) := by
  induction ks with
  | nil =>
    intro m k v
    exact Or.inl ⟨rfl, rfl, mapSet m k v, rfl⟩
  | cons k' ks ih =>
    intro m k v
    cases hf : mapFind m k' with
    | none =>
      rcases ih [] k v with ⟨h1, h2, m', h3⟩ | ⟨h1, h2⟩
      · left
        refine ⟨?_, ?_, ?_⟩
        · simp [createPath, hf, h1, Except.map]
        · simp only [List.map_cons, createPath, hf]
          simp only [assignAtKeys, mapFind_mapSet_self]
          rw [h2, h3, specCreateSet, hf]
          simp [Except.map, mapSet_mapSet, h3]
        · refine ⟨mapSet m k' (.obj m'), ?_⟩
          rw [specCreateSet, hf]
          simp [Except.map, h3]
      · obtain ⟨mm, hmm⟩ := specCreateSet_empty_ok ks k v
        rw [hmm] at h2
        exact absurd h2 (by simp)
    | some child =>
      cases child with
      | obj centries =>
        rcases ih centries k v with ⟨h1, h2, m', h3⟩ | ⟨h1, h2⟩
        · left
          refine ⟨?_, ?_, ?_⟩
          · simp [createPath, hf, h1, Except.map]
          · simp only [List.map_cons, createPath, hf]
            simp only [assignAtKeys, mapFind_mapSet_self]
            rw [h2, h3, specCreateSet, hf]
            simp [Except.map, mapSet_mapSet, h3]
          · refine ⟨mapSet m k' (.obj m'), ?_⟩
            rw [specCreateSet, hf]
            simp [Except.map, h3]
        · right
          have e1 : (createPath centries (ks.map QuerySegment.key)).1 = centries := by
            rw [h1]
          have e2 : (createPath centries (ks.map QuerySegment.key)).2
              = .error .pathConflict := by
            rw [h1]
          constructor
          · simp only [List.map_cons, createPath, hf, e1, e2]
            simp [Except.map, mapSet_of_mapFind_some m k' _ hf]
          · rw [specCreateSet, hf]
            simp [Except.map, h2]
      | null => exact Or.inr ⟨by simp [createPath, hf], by simp [specCreateSet, hf]⟩
      | bool b => exact Or.inr ⟨by simp [createPath, hf], by simp [specCreateSet, hf]⟩
      | num n => exact Or.inr ⟨by simp [createPath, hf], by simp [specCreateSet, hf]⟩
      | str s => exact Or.inr ⟨by simp [createPath, hf], by simp [specCreateSet, hf]⟩
      | arr elems => exact Or.inr ⟨by simp [createPath, hf], by simp [specCreateSet, hf]⟩

/-- A parent path containing a non-Key segment makes createPath fail (with
the non-Key error, or a conflict reached earlier on the walk). -/
theorem createPath_nonkey (segs : List QuerySegment) :
    ∀ m : List (String × Node),
      (∀ ks : List String, segs ≠ ks.map QuerySegment.key) →
      (createPath m segs).2 = .error .createNonKey ∨
        (createPath m segs).2 = .error .pathConflict := by
  induction segs with
  | nil =>
    intro m h
    exact absurd rfl (h [])
  | cons seg rest ih =>
    intro m h
    cases seg with
    | key k =>
      have hrest : ∀ ks : List String, rest ≠ ks.map QuerySegment.key := by
        intro ks hks
        exact h (k :: ks) (by simp [hks])
      cases hf : mapFind m k with
      | none =>
        rcases ih [] hrest with hr | hr
        · left
          simp [createPath, hf, hr, Except.map]
        · right
          simp [createPath, hf, hr, Except.map]
      | some child =>
        cases child with
        | obj centries =>
          rcases ih centries hrest with hr | hr
          · left
            simp [createPath, hf, hr, Except.map]
          · right
            simp [createPath, hf, hr, Except.map]
        | null => right; simp [createPath, hf]
        | bool b => right; simp [createPath, hf]
        | num n => right; simp [createPath, hf]
        | str s => right; simp [createPath, hf]
        | arr elems => right; simp [createPath, hf]
    | index i => left; simp [createPath]
    | wildcard => left; simp [createPath]

theorem assignAtKeys_err (ks : List String) :
    ∀ (m : List (String × Node)) (fin : QuerySegment) (v : Node) (e : Err),
      assignAtKeys m ks fin v = .error e →
      e = .setNonKeyFinal ∨ e = .unreachableBranch := by
  induction ks with
  | nil =>
    intro m fin v e h
    cases fin with
    | key k => simp [assignAtKeys] at h
    | index i =>
      simp only [assignAtKeys] at h
      cases h
      exact Or.inl rfl
    | wildcard =>
      simp only [assignAtKeys] at h
      cases h
      exact Or.inl rfl
  | cons k' ks ih =>
    intro m fin v e h
    simp only [assignAtKeys] at h
    cases hf : mapFind m k' with
    | none =>
      rw [hf] at h
      cases h
      exact Or.inr rfl
    | some child =>
      cases child with
      | obj centries =>
        cases ha : assignAtKeys centries ks fin v with
        | error e2 =>
          simp only [hf, ha] at h
          cases h
          exact ih centries fin v _ ha
        | ok c =>
          simp [hf, ha] at h
      | null => simp only [hf] at h; cases h; exact Or.inr rfl
      | bool b => simp only [hf] at h; cases h; exact Or.inr rfl
      | num n => simp only [hf] at h; cases h; exact Or.inr rfl
      | str s => simp only [hf] at h; cases h; exact Or.inr rfl
      | arr elems => simp only [hf] at h; cases h; exact Or.inr rfl

theorem createPath_nil_no_conflict (segs : List QuerySegment) :
    (createPath [] segs).2 ≠ .error .pathConflict := by
  induction segs with
  | nil => simp [createPath]
  | cons seg rest ih =>
    cases seg with
    | key k =>
      intro h
      simp only [createPath, mapFind] at h
      cases hr : (createPath [] rest).2 with
      | error e =>
        rw [hr] at h
        simp [Except.map] at h
        exact ih (hr.trans (by rw [h]))
      | ok ks =>
        rw [hr] at h
        simp [Except.map] at h
    | index i => simp [createPath]
    | wildcard => simp [createPath]

/-- A createPath walk that ends in a conflict has not modified the
document: the conflict is found before any empty Object is installed. -/
theorem createPath_conflict_unchanged (segs : List QuerySegment) :
    ∀ m : List (String × Node),
      (createPath m segs).2 = .error .pathConflict →
      (createPath m segs).1 = m := by
  induction segs with
  | nil => intro m h; simp [createPath] at h
  | cons seg rest ih =>
    intro m h
    cases seg with
    | key k =>
      cases hf : mapFind m k with
      | none =>
        simp only [createPath, hf] at h ⊢
        cases hr : (createPath [] rest).2 with
        | error e =>
          rw [hr] at h
          simp [Except.map] at h
          exact absurd (hr.trans (by rw [h])) (createPath_nil_no_conflict rest)
        | ok ks =>
          rw [hr] at h
          simp [Except.map] at h
      | some child =>
        cases child with
        | obj centries =>
          simp only [createPath, hf] at h ⊢
          cases hr : (createPath centries rest).2 with
          | error e =>
            rw [hr] at h
            simp [Except.map] at h
            subst h
            rw [ih centries hr, mapSet_of_mapFind_some m k _ hf]
          | ok ks =>
            rw [hr] at h
            simp [Except.map] at h
        | null => simp [createPath, hf]
        | bool b => simp [createPath, hf]
        | num n => simp [createPath, hf]
        | str s => simp [createPath, hf]
        | arr elems => simp [createPath, hf]
    | index i => simp [createPath]
    | wildcard => simp [createPath]

/-- Deleting an absent terminal key through a successfully navigated
Object parent leaves the whole document unchanged. -/
theorem deleteParent_noop (ps : List QuerySegment) :
    ∀ (d : Node) (entries : List (String × Node)) (k : String),
      navigate d ps = .ok (.obj entries) → mapFind entries k = none →
      deleteParent d ps k = .ok d := by
  induction ps with
  | nil =>
    intro d entries k hnav hfind
    simp only [navigate] at hnav
    cases hnav
    simp [deleteParent, mapDel_of_mapFind_none _ _ hfind]
  | cons seg rest ih =>
    intro d entries k hnav hfind
    cases seg with
    | key kk =>
      cases d with
      | obj dentries =>
        simp only [navigate] at hnav
        cases hf : mapFind dentries kk with
        | none => rw [hf] at hnav; cases hnav
        | some child =>
          rw [hf] at hnav
          simp only [deleteParent, hf]
          rw [ih child entries k hnav hfind]
          simp [mapSet_of_mapFind_some _ _ _ hf]
      | null => simp [navigate] at hnav
      | bool b => simp [navigate] at hnav
      | num n => simp [navigate] at hnav
      | str s => simp [navigate] at hnav
      | arr elems => simp [navigate] at hnav
    | index i =>
      cases d with
      | arr elems =>
        simp only [navigate] at hnav
        by_cases hb : 0 ≤ i ∧ i < (elems.length : Int)
        · rw [dif_pos hb] at hnav
          simp only [deleteParent]
          rw [dif_pos hb]
          have hrec := ih _ entries k hnav hfind
          rw [hrec]
          have hself := list_set_get_self elems i.toNat (by omega)
          simp only [List.get_eq_getElem] at hself hrec ⊢
          simp [hself]
        · rw [dif_neg hb] at hnav; cases hnav
      | null => simp [navigate] at hnav
      | bool b => simp [navigate] at hnav
      | num n => simp [navigate] at hnav
      | str s => simp [navigate] at hnav
      | obj dentries => simp [navigate] at hnav
    | wildcard =>
      cases d with
      | arr elems =>
        simp only [navigate] at hnav
        cases hnav
      | null => simp [navigate] at hnav
      | bool b => simp [navigate] at hnav
      | num n => simp [navigate] at hnav
      | str s => simp [navigate] at hnav
      | obj dentries => simp [navigate] at hnav

/-! ## Claim theorems -/

/-- C2: navigating a Wildcard segment over an array never fails; it
returns an array holding exactly the sub-results of the elements for
which the remaining path succeeds, in original element order (elements
whose remaining navigation fails are dropped silently), and the result
may be empty. -/
theorem c2_wildcard_leniency (xs : List Node) (rest : List QuerySegment) :
    ∃ ys : List Node,
      navigate (Node.arr xs) (QuerySegment.wildcard :: rest)
        = .ok (Node.arr ys) ∧
      List.Forall₂ (fun x y => navigate x rest = .ok y)
        (xs.filter (fun x => isOkB (navigate x rest))) ys := by
  refine ⟨xs.filterMap (fun x => (navigate x rest).toOption), rfl, ?_⟩
  induction xs with
  | nil => simp
  | cons x xs ih =>
    cases hx : navigate x rest with
    | ok r =>
      rw [List.filter_cons, List.filterMap_cons]
      simp only [hx, isOkB, Except.toOption]
      exact List.Forall₂.cons hx ih
    | error e =>
      rw [List.filter_cons, List.filterMap_cons]
      simp only [hx, isOkB, Except.toOption]
      simpa using ih

/-- C6: an Index(n) navigation step on an array of length len fails with
the bounds not-found error exactly when n is below 0 or at least len,
descends into the n-th element otherwise, and an Index step on a
non-Array node fails with the type-mismatch error. -/
theorem c6_index_bounds (xs : List Node) (n : Int) (rest : List QuerySegment) :
    (navigate (Node.arr xs) [QuerySegment.index n] = .error .indexOutOfBounds
      ↔ (n < 0 ∨ (xs.length : Int) ≤ n))
    ∧ (∀ h : 0 ≤ n ∧ n < (xs.length : Int),
        navigate (Node.arr xs) (QuerySegment.index n :: rest)
          = navigate (xs.get ⟨n.toNat, by omega⟩) rest)
    ∧ (∀ d : Node, (∀ ys, d ≠ Node.arr ys) →
        navigate d (QuerySegment.index n :: rest) = .error .indexOnNonArray) := by
  refine ⟨?_, ?_, ?_⟩
  · by_cases hb : 0 ≤ n ∧ n < (xs.length : Int)
    · simp only [navigate, dif_pos hb]
      constructor
      · intro h
        simp [navigate] at h
      · intro h
        omega
    · simp only [navigate, dif_neg hb]
      constructor
      · intro _
        omega
      · intro _
        trivial
  · intro h
    simp only [navigate, dif_pos h]
  · intro d hd
    cases d with
    | arr elems => exact absurd rfl (hd elems)
    | null => simp [navigate]
    | bool b => simp [navigate]
    | num n => simp [navigate]
    | str s => simp [navigate]
    | obj entries => simp [navigate]

/-- C8: List succeeds exactly when Query succeeds with an Object, in
which case it returns exactly that Object's key set (order is
unspecified in Go, so the key list is compared as a set); a non-Object
Query result makes List fail with the type-mismatch error, and a Query
failure propagates unchanged. -/
theorem c8_list_keys (root : List (String × Node)) (p : String) :
    (∀ m, QueryOp root p = .ok (.obj m) →
      ∃ ks, ListOp root p = .ok ks ∧
        ∀ s, s ∈ ks ↔ (mapFind m s).isSome = true)
    ∧ (∀ d, QueryOp root p = .ok d → (∀ m, d ≠ Node.obj m) →
        ListOp root p = .error .listNonObject)
    ∧ (∀ e, QueryOp root p = .error e → ListOp root p = .error e) := by
  refine ⟨?_, ?_, ?_⟩
  · intro m hq
    refine ⟨m.map Prod.fst, ?_, ?_⟩
    · simp [ListOp, hq]
    · intro s
      exact (mapFind_isSome_iff m s).symm
  · intro d hq hd
    cases d with
    | obj m => exact absurd rfl (hd m)
    | null => simp [ListOp, hq]
    | bool b => simp [ListOp, hq]
    | num n => simp [ListOp, hq]
    | str s => simp [ListOp, hq]
    | arr elems => simp [ListOp, hq]
  · intro e hq
    simp [ListOp, hq]

/-- C4 counterexample: the claim says the snapshot is used when its
modification time is at least as new as the JSON file's, but Go uses
`ModTime().After` (strictly newer): with equal modification times (5 = 5,
so "at least as new" holds) and a decodable snapshot present, loadData
takes the JSON branch, not the snapshot branch. -/
theorem c4_counterexample :
    (FsState.mk (some 5) (some 5) (some [("fromBin", Node.null)])
        (some [("fromJson", Node.null)]) []).binMTime = some 5 ∧
    (FsState.mk (some 5) (some 5) (some [("fromBin", Node.null)])
        (some [("fromJson", Node.null)]) []).jsonMTime = some 5 ∧
    (FsState.mk (some 5) (some 5) (some [("fromBin", Node.null)])
        (some [("fromJson", Node.null)]) []).binContent.isSome = true ∧
    (loadDataModel (FsState.mk (some 5) (some 5) (some [("fromBin", Node.null)])
        (some [("fromJson", Node.null)]) [])).2 = LoadSource.json := by
  exact ⟨rfl, rfl, rfl, rfl⟩

/-- C4 amended: on first load, if the binary snapshot exists, its
modification time is strictly newer than the canonical JSON file's (or
the JSON file is absent), and the snapshot reads and decodes
successfully, then the document is deserialized from the snapshot rather
than from the JSON file. -/
theorem c4_snapshot_preference (fs : FsState) (bt : Int)
    (doc : List (String × Node))
    (hbin : fs.binMTime = some bt)
    (hnewer : fs.jsonMTime = none ∨ ∃ jt, fs.jsonMTime = some jt ∧ jt < bt)
    (hdec : fs.binContent = some doc) :
    loadDataModel fs = (doc, LoadSource.snapshot) := by
  rcases hnewer with hj | ⟨jt, hj, hlt⟩
  · simp [loadDataModel, hbin, hj, hdec]
  · simp [loadDataModel, hbin, hj, hlt, hdec]

/-- C4 witness: a concrete store where the snapshot is strictly newer
than the JSON file and decodes, so the snapshot branch is taken. -/
theorem c4_snapshot_preference_witness :
    loadDataModel (FsState.mk (some 7) (some 5) (some [("a", Node.null)])
        (some [("b", Node.null)]) [])
      = ([("a", Node.null)], LoadSource.snapshot) :=
  c4_snapshot_preference _ 7 _ rfl (Or.inr ⟨5, rfl, by omega⟩) rfl

/-- C7 counterexample: the claim makes the token `[]` a fully bracketed
token whose expr (the empty string) is neither `*` nor an integer, hence
a parse error; but the Go regexes require non-empty bracket content, so
`[]` falls through to a plain Key token and parsing succeeds. -/
theorem c7_counterexample :
    parseQuery "[]" = .ok [QuerySegment.key "[]"] ∧
      ∀ e : Err, parseQuery "[]" ≠ .error e := by
  constructor
  · rfl
  · intro e h
    rw [show parseQuery "[]" = .ok [QuerySegment.key "[]"] from rfl] at h
    exact Except.noConfusion h

/-- C7 amended: for every input string the parser splits on dots and
silently drops empty tokens; a token that starts with `[`, ends with `]`
and has non-empty newline-free content between them becomes a single
Index/Wildcard segment; otherwise a token that ends with `]` and splits
as name[expr] — name non-empty and newline-free, expr non-empty and
newline-free, with the shortest such name — becomes Key(name) followed
by an Index/Wildcard segment; any other token (including `[]` and
tokens whose bracket content is empty or contains a newline) becomes
Key(token).  Bracket content `*` yields Wildcard; content accepted by
Go's Atoi (optional sign, decimal digits, within the signed 64-bit
range) yields Index; and parsing fails with a parse error exactly when a
matched bracket content is neither. -/
theorem c7_parser_contract (q : String) : parseQuery q = parseSpec q :=
  parseQuery_eq_parseSpec q

/-- C1: for every non-empty path that parses successfully with a Key as
final segment and every value, a successful Set followed by Query of the
same path on the resulting document returns exactly the written value. -/
theorem c1_set_query_roundtrip (root : List (String × Node)) (p : String)
    (v : Node) (segs : List QuerySegment) (k : String)
    (hparse : parseQuery p = .ok segs)
    (hlast : segs.getLast? = some (QuerySegment.key k))
    (hok : (SetOp root p v).2 = none) :
    QueryOp (SetOp root p v).1 p = .ok v := by
  by_cases hp0 : p = ""
  · subst hp0
    simp [SetOp] at hok
  · simp only [SetOp, if_neg hp0, hparse] at hok ⊢
    simp only [QueryOp, if_neg hp0, hparse]
    cases segs with
    | nil => simp at hlast
    | cons s1 stail =>
      cases stail with
      | nil =>
        have hs1 : s1 = QuerySegment.key k := by simpa using hlast
        subst hs1
        simp only [SetSegs]
        simp [navigate, mapFind_mapSet_self]
      | cons s2 more =>
        have hne : s1 :: s2 :: more ≠ [] := List.cons_ne_nil s1 (s2 :: more)
        have hgl : (s1 :: s2 :: more).getLast hne = QuerySegment.key k := by
          have h2 := List.getLast?_eq_getLast (s1 :: s2 :: more) hne
          rw [h2] at hlast
          exact Option.some_injective _ hlast
        have hsplit : (s1 :: s2 :: more).dropLast ++ [QuerySegment.key k]
            = s1 :: s2 :: more := by
          have h3 := List.dropLast_concat_getLast hne
          rw [hgl] at h3
          exact h3
        simp only [SetSegs] at hok ⊢
        cases hnav : navigate (.obj root) ((s1 :: s2 :: more).dropLast) with
        | ok P =>
          cases hupd : updateParent (.obj root) ((s1 :: s2 :: more).dropLast)
              ((s1 :: s2 :: more).getLast hne) v with
          | error e =>
            rw [hnav, hupd] at hok
            simp at hok
          | ok d =>
            cases d with
            | obj root2 =>
              rw [hgl] at hupd
              have hq := updateParent_navigate ((s1 :: s2 :: more).dropLast)
                (.obj root) (.obj root2) k v hupd
              rw [hsplit] at hq
              exact hq
            | null =>
              rw [hnav, hupd] at hok
              simp at hok
            | bool b =>
              rw [hnav, hupd] at hok
              simp at hok
            | num n =>
              rw [hnav, hupd] at hok
              simp at hok
            | str sv =>
              rw [hnav, hupd] at hok
              simp at hok
            | arr elems =>
              rw [hnav, hupd] at hok
              simp at hok
        | error e =>
          cases hcp : createPath root ((s1 :: s2 :: more).dropLast) with
          | mk root1 res =>
            cases res with
            | error e2 =>
              rw [hnav, hcp] at hok
              simp at hok
            | ok ks =>
              cases ha : assignAtKeys root1 ks ((s1 :: s2 :: more).getLast hne) v with
              | error e2 =>
                have ha3 : assignAtKeys root1 ks
                    ((s2 :: more).getLast (List.cons_ne_nil s2 more)) v
                    = Except.error e2 := ha
                rw [hnav, hcp] at hok
                simp [ha3] at hok
              | ok root2 =>
                have ha4 := ha
                rw [hgl] at ha4
                have hkeys : (s1 :: s2 :: more).dropLast = ks.map QuerySegment.key :=
                  createPath_keys _ root ks (by rw [hcp])
                have hq := assignAtKeys_navigate ks root1 root2 k v ha4
                rw [← hkeys, hsplit] at hq
                show navigate (Node.obj (match assignAtKeys root1 ks
                      ((s1 :: s2 :: more).getLast hne) v with
                    | Except.ok root3 => (root3, none)
                    | Except.error e3 => (root1, some e3)).1) (s1 :: s2 :: more)
                  = Except.ok v
                rw [hgl, ha4]
                exact hq

/-- C1 witness: Set then Query of "a.b" on the empty document returns
the written value. -/
theorem c1_set_query_roundtrip_witness :
    parseQuery "a.b" = .ok [QuerySegment.key "a", QuerySegment.key "b"] ∧
    (SetOp [] "a.b" (Node.str "x")).2 = none ∧
    QueryOp (SetOp [] "a.b" (Node.str "x")).1 "a.b" = .ok (Node.str "x") :=
  ⟨rfl, rfl, c1_set_query_roundtrip [] "a.b" (Node.str "x")
    [QuerySegment.key "a", QuerySegment.key "b"] "b" rfl rfl rfl⟩

/-- C3: when the parent path of a multi-segment Set fails to navigate,
Set auto-creates it: on an all-Key parent path the result is exactly the
spec-side walk that materializes an empty Object at each missing step,
assigns the final Key in the created parent on success, and fails with
the conflict error (leaving the document as it was) when an existing
node on the walk is not an Object; a parent path containing an
Index/Wildcard makes Set fail (with the non-Key creation error, or a
conflict found earlier on the walk). -/
theorem c3_auto_creation (root : List (String × Node)) (p : String) (v : Node)
    (parentSegs : List QuerySegment) (k : String) (e : Err)
    (hparse : parseQuery p = .ok (parentSegs ++ [QuerySegment.key k]))
    (hne : parentSegs ≠ [])
    (hnav : navigate (.obj root) parentSegs = .error e) :
    (∀ ks : List String, parentSegs = ks.map QuerySegment.key →
      SetOp root p v = (match specCreateSet root ks k v with
        | .ok r => (r, none)
        | .error e2 => (root, some e2)))
    ∧ ((∀ ks : List String, parentSegs ≠ ks.map QuerySegment.key) →
        ∃ e2, (SetOp root p v).2 = some e2 ∧
          (e2 = Err.createNonKey ∨ e2 = Err.pathConflict)) := by
  have hp0 : p ≠ "" := by
    intro h
    subst h
    rw [show parseQuery "" = Except.ok [] from rfl] at hparse
    have h2 := (Except.ok.injEq _ _).mp hparse
    exact absurd h2.symm (by simp)
  cases parentSegs with
  | nil => exact absurd rfl hne
  | cons a tail =>
    cases hl2 : tail ++ [QuerySegment.key k] with
    | nil => exact absurd hl2 (by simp)
    | cons b more2 =>
      have hseg : (a :: tail) ++ [QuerySegment.key k] = a :: b :: more2 :=
        congrArg (fun l => a :: l) hl2
      have hnemore : a :: b :: more2 ≠ [] := List.cons_ne_nil _ _
      have hdl : (a :: b :: more2).dropLast = a :: tail := by
        rw [← hseg]
        exact List.dropLast_concat
      have hfin : (a :: b :: more2).getLast hnemore = QuerySegment.key k := by
        have h6 : (a :: b :: more2).getLast? = some (QuerySegment.key k) := by
          rw [← hseg]
          exact List.getLast?_concat (a :: tail)
        have h7 := List.getLast?_eq_getLast (a :: b :: more2) hnemore
        rw [h7] at h6
        exact Option.some_injective _ h6
      simp only [SetOp, if_neg hp0, hparse, hseg]
      constructor
      · intro ks hks
        have hnav3 : navigate (.obj root) (ks.map QuerySegment.key)
            = .error e := by
          rw [← hks]
          exact hnav
        rcases createPath_allKeys ks root k v with ⟨h1, h2, m', h3⟩ | ⟨h1, h2⟩
        · cases hcp : createPath root (ks.map QuerySegment.key) with
          | mk root1 res =>
            have hres : res = Except.ok ks := by
              rw [hcp] at h1
              exact h1
            subst hres
            rw [hcp] at h2
            simp only [SetSegs]
            rw [hdl, hks, hfin, hnav3, hcp]
            simp [h2, h3]
        · simp only [SetSegs]
          rw [hdl, hks, hfin, hnav3, h1]
          simp [h2]
      · intro hnk
        have hnav2 : navigate (.obj root) ((a :: b :: more2).dropLast)
            = .error e := by
          rw [hdl]
          exact hnav
        rcases createPath_nonkey (a :: tail) root hnk with hcl | hcl
        · cases hcp : createPath root (a :: tail) with
          | mk root1 res =>
            have hres : res = Except.error Err.createNonKey := by
              rw [hcp] at hcl
              exact hcl
            subst hres
            refine ⟨Err.createNonKey, ?_, Or.inl rfl⟩
            simp only [SetSegs]
            rw [hdl, hnav]
            rw [hcp]
        · cases hcp : createPath root (a :: tail) with
          | mk root1 res =>
            have hres : res = Except.error Err.pathConflict := by
              rw [hcp] at hcl
              exact hcl
            subst hres
            refine ⟨Err.pathConflict, ?_, Or.inr rfl⟩
            simp only [SetSegs]
            rw [hdl, hnav]
            rw [hcp]

/-- C3 witness: on the empty document, Set "a.b.c" goes through the
auto-creation walk described by the spec-side recursion. -/
theorem c3_auto_creation_witness :
    parseQuery "a.b.c" = .ok ([QuerySegment.key "a", QuerySegment.key "b"]
      ++ [QuerySegment.key "c"]) ∧
    navigate (.obj []) [QuerySegment.key "a", QuerySegment.key "b"]
      = .error Err.keyNotFound ∧
    SetOp [] "a.b.c" (Node.num 1) =
      (match specCreateSet [] ["a", "b"] "c" (Node.num 1) with
        | .ok r => (r, none)
        | .error e2 => ([], some e2)) :=
  ⟨rfl, rfl,
    (c3_auto_creation [] "a.b.c" (Node.num 1)
      [QuerySegment.key "a", QuerySegment.key "b"] "c" Err.keyNotFound rfl
      (List.cons_ne_nil _ _) rfl).1 ["a", "b"] rfl⟩

/-- C5: Delete of a path whose parent navigates to an Object missing the
terminal Key succeeds and leaves the document unchanged; Delete of a
multi-segment path whose parent navigation fails returns that navigation
error without touching the document (no auto-creation). -/
theorem c5_delete_idempotent (root : List (String × Node)) (p : String)
    (ps : List QuerySegment) (m : List (String × Node)) (k : String) :
    (parseQuery p = .ok (ps ++ [QuerySegment.key k]) →
      navigate (.obj root) ps = .ok (.obj m) → mapFind m k = none →
      DeleteOp root p = (root, none))
    ∧ (∀ fin e, parseQuery p = .ok (ps ++ [fin]) → ps ≠ [] →
        navigate (.obj root) ps = .error e →
        DeleteOp root p = (root, some e)) := by
  constructor
  · intro hparse hnav hfind
    have hp0 : p ≠ "" := by
      intro h
      subst h
      rw [show parseQuery "" = Except.ok [] from rfl] at hparse
      have h2 := (Except.ok.injEq _ _).mp hparse
      exact absurd h2.symm (by simp)
    simp only [DeleteOp, if_neg hp0, hparse]
    cases ps with
    | nil =>
      have hm : root = m := by
        simp only [navigate] at hnav
        exact Node.obj.injEq _ _ |>.mp (Except.ok.injEq _ _ |>.mp hnav)
      subst hm
      simp only [List.nil_append, DeleteSegs]
      rw [mapDel_of_mapFind_none root k hfind]
    | cons a tail =>
      cases hl2 : tail ++ [QuerySegment.key k] with
      | nil => exact absurd hl2 (by simp)
      | cons b more2 =>
        have hseg : (a :: tail) ++ [QuerySegment.key k] = a :: b :: more2 :=
          congrArg (fun l => a :: l) hl2
        have hnemore : a :: b :: more2 ≠ [] := List.cons_ne_nil _ _
        have hdl : (a :: b :: more2).dropLast = a :: tail := by
          rw [← hseg]
          exact List.dropLast_concat
        have hfin : (a :: b :: more2).getLast hnemore = QuerySegment.key k := by
          have h6 : (a :: b :: more2).getLast? = some (QuerySegment.key k) := by
            rw [← hseg]
            exact List.getLast?_concat (a :: tail)
          have h7 := List.getLast?_eq_getLast (a :: b :: more2) hnemore
          rw [h7] at h6
          exact Option.some_injective _ h6
        have hdel : deleteParent (.obj root) (a :: tail) k = .ok (.obj root) :=
          deleteParent_noop (a :: tail) (.obj root) m k hnav hfind
        rw [hseg]
        simp only [DeleteSegs]
        rw [hdl, hfin, hnav]
        simp [hdel]
  · intro fin e hparse hne hnav
    have hp0 : p ≠ "" := by
      intro h
      subst h
      rw [show parseQuery "" = Except.ok [] from rfl] at hparse
      have h2 := (Except.ok.injEq _ _).mp hparse
      exact absurd h2.symm (by simp)
    simp only [DeleteOp, if_neg hp0, hparse]
    cases ps with
    | nil => exact absurd rfl hne
    | cons a tail =>
      cases hl2 : tail ++ [fin] with
      | nil => exact absurd hl2 (by simp)
      | cons b more2 =>
        have hseg : (a :: tail) ++ [fin] = a :: b :: more2 :=
          congrArg (fun l => a :: l) hl2
        have hdl : (a :: b :: more2).dropLast = a :: tail := by
          rw [← hseg]
          exact List.dropLast_concat
        rw [hseg]
        simp only [DeleteSegs]
        rw [hdl, hnav]

/-- C5 witness: deleting the absent key "zz" under "a" leaves the
document unchanged, and deleting under the missing parent "q" reports
the navigation error. -/
theorem c5_delete_idempotent_witness :
    DeleteOp [("a", Node.obj [("b", Node.num 1)])] "a.zz"
      = ([("a", Node.obj [("b", Node.num 1)])], none) ∧
    DeleteOp [("a", Node.obj [("b", Node.num 1)])] "q.w"
      = ([("a", Node.obj [("b", Node.num 1)])], some Err.keyNotFound) :=
  ⟨(c5_delete_idempotent [("a", Node.obj [("b", Node.num 1)])] "a.zz"
      [QuerySegment.key "a"] [("b", Node.num 1)] "zz").1 rfl rfl rfl,
    (c5_delete_idempotent [("a", Node.obj [("b", Node.num 1)])] "q.w"
      [QuerySegment.key "q"] [] "w").2 (QuerySegment.key "w") Err.keyNotFound
      rfl (List.cons_ne_nil _ _) rfl⟩

/-- C9 counterexample: Set "a.[0]" on the empty document returns an
error before persistence (the final segment is not a Key), yet the
in-memory document is no longer empty — the auto-creation walk has
already installed the empty Object at "a". -/
theorem c9_counterexample :
    SetOp [] "a.[0]" Node.null
      = ([("a", Node.obj [])], some Err.setNonKeyFinal) ∧
    ([("a", Node.obj [])] : List (String × Node)) ≠ [] :=
  ⟨rfl, List.cons_ne_nil _ _⟩

/-- C9 amended: when Set returns an error before persistence the
document is unchanged, except that an error raised after the
auto-creation walk ran (parent navigation failed) may leave the walk's
partial creations in place — the document then equals exactly the
createPath result; a walk that ends in a conflict error has installed
nothing, so on a conflict the document is always unchanged. -/
theorem c9_error_mutation (root : List (String × Node)) (p : String)
    (v : Node) (e : Err) (he : (SetOp root p v).2 = some e) :
    ((SetOp root p v).1 = root ∨
      ∃ segs, parseQuery p = .ok segs ∧ 2 ≤ segs.length ∧
        (∃ e2, navigate (.obj root) segs.dropLast = .error e2) ∧
        (SetOp root p v).1 = (createPath root segs.dropLast).1)
    ∧ (e = Err.pathConflict → (SetOp root p v).1 = root) := by
  by_cases hp0 : p = ""
  · subst hp0
    exact ⟨Or.inl rfl, fun _ => rfl⟩
  · cases hpq : parseQuery p with
    | error e2 =>
      have h1 : SetOp root p v = (root, some e2) := by
        simp [SetOp, if_neg hp0, hpq]
      rw [h1]
      exact ⟨Or.inl rfl, fun _ => rfl⟩
    | ok segs =>
      have hSet : SetOp root p v = SetSegs root segs v := by
        simp [SetOp, if_neg hp0, hpq]
      rw [hSet] at he ⊢
      cases segs with
      | nil => exact ⟨Or.inl rfl, fun _ => rfl⟩
      | cons s1 stail =>
        cases stail with
        | nil =>
          cases s1 with
          | key k => simp [SetSegs] at he
          | index i => exact ⟨Or.inl rfl, fun _ => rfl⟩
          | wildcard => exact ⟨Or.inl rfl, fun _ => rfl⟩
        | cons s2 more =>
          cases hnav : navigate (.obj root) ((s1 :: s2 :: more).dropLast) with
          | ok P =>
            cases hupd : updateParent (.obj root) ((s1 :: s2 :: more).dropLast)
                ((s1 :: s2 :: more).getLast (List.cons_ne_nil s1 (s2 :: more)))
                v with
            | error e3 =>
              have hval : SetSegs root (s1 :: s2 :: more) v = (root, some e3) := by
                simp only [SetSegs]
                rw [hnav, hupd]
              rw [hval]
              exact ⟨Or.inl rfl, fun _ => rfl⟩
            | ok d =>
              cases d with
              | obj root2 =>
                have hval : SetSegs root (s1 :: s2 :: more) v = (root2, none) := by
                  simp only [SetSegs]
                  rw [hnav, hupd]
                rw [hval] at he
                simp at he
              | null =>
                have hval : SetSegs root (s1 :: s2 :: more) v
                    = (root, some Err.unreachableBranch) := by
                  simp only [SetSegs]
                  rw [hnav, hupd]
                rw [hval]
                exact ⟨Or.inl rfl, fun _ => rfl⟩
              | bool b =>
                have hval : SetSegs root (s1 :: s2 :: more) v
                    = (root, some Err.unreachableBranch) := by
                  simp only [SetSegs]
                  rw [hnav, hupd]
                rw [hval]
                exact ⟨Or.inl rfl, fun _ => rfl⟩
              | num n =>
                have hval : SetSegs root (s1 :: s2 :: more) v
                    = (root, some Err.unreachableBranch) := by
                  simp only [SetSegs]
                  rw [hnav, hupd]
                rw [hval]
                exact ⟨Or.inl rfl, fun _ => rfl⟩
              | str sv =>
                have hval : SetSegs root (s1 :: s2 :: more) v
                    = (root, some Err.unreachableBranch) := by
                  simp only [SetSegs]
                  rw [hnav, hupd]
                rw [hval]
                exact ⟨Or.inl rfl, fun _ => rfl⟩
              | arr elems =>
                have hval : SetSegs root (s1 :: s2 :: more) v
                    = (root, some Err.unreachableBranch) := by
                  simp only [SetSegs]
                  rw [hnav, hupd]
                rw [hval]
                exact ⟨Or.inl rfl, fun _ => rfl⟩
          | error e2 =>
            cases hcp : createPath root ((s1 :: s2 :: more).dropLast) with
            | mk root1 res =>
              cases res with
              | error e3 =>
                have hval : SetSegs root (s1 :: s2 :: more) v
                    = (root1, some e3) := by
                  simp only [SetSegs]
                  rw [hnav, hcp]
                rw [hval] at he ⊢
                have he2 : e3 = e := by simpa using he
                constructor
                · right
                  refine ⟨s1 :: s2 :: more, rfl, by simp, ⟨e2, hnav⟩, ?_⟩
                  rw [hcp]
                · intro hpc
                  have h0 : (createPath root ((s1 :: s2 :: more).dropLast)).2
                      = .error .pathConflict := by
                    rw [hcp]
                    simp [he2.trans hpc]
                  have h1 := createPath_conflict_unchanged _ root h0
                  rw [hcp] at h1
                  exact h1
              | ok ks =>
                cases ha : assignAtKeys root1 ks
                    ((s1 :: s2 :: more).getLast
                      (List.cons_ne_nil s1 (s2 :: more))) v with
                | ok root2 =>
                  have ha3 : assignAtKeys root1 ks
                      ((s2 :: more).getLast (List.cons_ne_nil s2 more)) v
                      = Except.ok root2 := ha
                  have hval : SetSegs root (s1 :: s2 :: more) v
                      = (root2, none) := by
                    simp only [SetSegs]
                    rw [hnav, hcp]
                    simp [ha3]
                  rw [hval] at he
                  simp at he
                | error e3 =>
                  have ha3 : assignAtKeys root1 ks
                      ((s2 :: more).getLast (List.cons_ne_nil s2 more)) v
                      = Except.error e3 := ha
                  have hval : SetSegs root (s1 :: s2 :: more) v
                      = (root1, some e3) := by
                    simp only [SetSegs]
                    rw [hnav, hcp]
                    simp [ha3]
                  rw [hval] at he ⊢
                  have he2 : e3 = e := by simpa using he
                  constructor
                  · right
                    refine ⟨s1 :: s2 :: more, rfl, by simp, ⟨e2, hnav⟩, ?_⟩
                    rw [hcp]
                  · intro hpc
                    rcases assignAtKeys_err ks root1 _ v e3 ha with h | h
                    · exact absurd (h.symm.trans (he2.trans hpc)) (by simp)
                    · exact absurd (h.symm.trans (he2.trans hpc)) (by simp)

/-- C9 witness: a concrete error exit from Set; the resulting in-memory
document is accounted for by the amended statement. -/
theorem c9_error_mutation_witness :
    (SetOp [] "a.[0]" Node.null).2 = some Err.setNonKeyFinal ∧
    (((SetOp [] "a.[0]" Node.null).1 = [] ∨
      ∃ segs, parseQuery "a.[0]" = .ok segs ∧ 2 ≤ segs.length ∧
        (∃ e2, navigate (.obj []) segs.dropLast = .error e2) ∧
        (SetOp [] "a.[0]" Node.null).1 = (createPath [] segs.dropLast).1)
    ∧ (Err.setNonKeyFinal = Err.pathConflict →
        (SetOp [] "a.[0]" Node.null).1 = [])) :=
  ⟨rfl, c9_error_mutation [] "a.[0]" Node.null Err.setNonKeyFinal rfl⟩

/-- C6 witness: index 5 on a 2-element array is a bounds error, index 0
returns the first element, and an index step on a string is a type
mismatch. -/
theorem c6_index_bounds_witness :
    navigate (Node.arr [Node.num 1, Node.num 2]) [QuerySegment.index 5]
      = .error Err.indexOutOfBounds ∧
    navigate (Node.arr [Node.num 1, Node.num 2]) (QuerySegment.index 0 :: [])
      = .ok (Node.num 1) ∧
    navigate (Node.str "s") (QuerySegment.index 0 :: [])
      = .error Err.indexOnNonArray := by
  refine ⟨?_, ?_, ?_⟩
  · exact (c6_index_bounds [Node.num 1, Node.num 2] 5 []).1.mpr
      (Or.inr (by simp))
  · rw [(c6_index_bounds [Node.num 1, Node.num 2] 0 []).2.1 (by decide)]
    rfl
  · exact (c6_index_bounds [Node.num 1, Node.num 2] 0 []).2.2 (Node.str "s")
      (fun ys h => Node.noConfusion h)

/-- C8 witness: listing "a" over a concrete document returns exactly the
key set of the Object found there. -/
theorem c8_list_keys_witness :
    QueryOp [("a", Node.obj [("b", Node.num 1)])] "a"
      = .ok (.obj [("b", Node.num 1)]) ∧
    (∃ ks, ListOp [("a", Node.obj [("b", Node.num 1)])] "a" = .ok ks ∧
      ∀ s, s ∈ ks ↔ (mapFind [("b", Node.num 1)] s).isSome = true) :=
  ⟨rfl, (c8_list_keys [("a", Node.obj [("b", Node.num 1)])] "a").1
    [("b", Node.num 1)] rfl⟩
